import Mathlib

/-!
Verification of the procedure-execution core of the `functions` package:
the lifecycle-hook runtime (`query`/`mutation`), the Outcome algebra
(`pipe`/`withTrace`), the retry wrappers, the command alias registry and
the cache-invalidation event stream.

The TypeScript sources are embedded shallowly:
* JS objects become Lean structures; tagged unions become inductives.
* Async functions are modelled as pure functions; the sequential await
  semantics of the source (hooks awaited one by one, sleeps in order) is
  captured by an explicit event log that each interpreter returns
  alongside its result.
* A function that can `throw` is modelled as returning `Except String`
  (the thrown error's message); a `try`/`catch` that swallows the error
  becomes a `match` whose branches coincide.
* `Date.now()` timestamps and `Math.random()` jitter are modelled by
  explicit `now`/`rand` parameters; stack-derived fields (`stack`,
  `callsite`) are modelled as absent (`none`), since the claims under
  study never mention them.
* JS `Map`/`Set` (insertion-ordered) are modelled as association lists /
  duplicate-free lists with append-at-end insertion.
-/

namespace Functions

/-! ## errors/types.ts and outcome.ts: Cause / Exception records

Both carry `name`, `message`, a free-form `data` payload, a `Date.now()`
timestamp and a debug `stack`.  The payload, timestamp and stack are
opaque to every operation studied here (only `name` and `message` are
ever read), so the embedding keeps the two observed fields. -/

structure Exception where
  name : String
  message : String
deriving DecidableEq, Repr

/-! ## types/result.ts: Result -/

inductive Result (T E : Type) : Type where
  | success (value : T)
  | failure (error : E)
deriving DecidableEq, Repr

def Result.isSuccess : Result T E → Bool
  | .success _ => true
  | .failure _ => false

def Result.isFailure : Result T E → Bool
  | .success _ => false
  | .failure _ => true

/-! ## functions/lifecycle.ts: the procedure runtime

A procedure built by `query` (and `mutation`, which is defined as
`query`) closes over a `ProcedureState` of four hook arrays and runs
`execute` on each invocation.  Hooks and the handler are dynamically
typed in the source; the embedding uses one value type `Val` for raw
input and parsed arguments (the parse-failure branch passes the raw
input where the other branches pass parsed args).  A hook evaluates to
`Except.error msg` when it throws `msg`.  `execute` returns the `Result`
together with the ordered log of the side effects it performed. -/

inductive Event : Type where
  | beforeRun (i : Nat)
  | handlerRun
  | afterRun (i : Nat)
  | onSuccessRun (i : Nat)
  | onErrorRun (i : Nat)
deriving DecidableEq, Repr

structure ProcedureState (Ctx Val T : Type) where
  /-- `parseArgs(options.args, input)`: validation of the raw input
  against the declared schema, as used at the top of `execute`. -/
  parseArgs : Val → Result Val Exception
  /-- the user handler; `Except.error msg` models a throw of `msg`. -/
  handler : Ctx → Val → Except String (Result T Exception)
  beforeInvokeHooks : List (Ctx → Val → Except String Unit)
  afterInvokeHooks : List (Ctx → Val → Result T Exception → Except String Unit)
  onSuccessHooks : List (Ctx → Val → T → Except String Unit)
  onErrorHooks : List (Ctx → Val → Exception → Except String Unit)

/-- The `for`/`try` loop over `beforeInvokeHooks`: hooks run in order
until one throws; the thrown message aborts the loop.  `i` is the index
of the first hook of `calls` in the full registration list. -/
def runBeforeHooks (calls : List (Except String Unit)) (i : Nat) :
    List Event × Option String :=
  match calls with
  | [] => ([], none)
  | c :: rest =>
    match c with
    | Except.ok _ =>
      let r := runBeforeHooks rest (i + 1)
      (Event.beforeRun i :: r.1, r.2)
    | Except.error msg => ([Event.beforeRun i], some msg)

/-- The `for`/`try`/`catch` loops over `afterInvokeHooks`,
`onSuccessHooks` and `onErrorHooks`: every hook is invoked in order; a
hook that throws is caught and logged (`console.error`), so iteration
continues either way. -/
def runCaughtHooks (calls : List (Except String Unit)) (mk : Nat → Event)
    (i : Nat) : List Event :=
  match calls with
  | [] => []
  | c :: rest =>
    match c with
    | Except.ok _ => mk i :: runCaughtHooks rest mk (i + 1)
    | Except.error _ => mk i :: runCaughtHooks rest mk (i + 1)

/-- Step 3 of `execute`: run the handler; a throw is converted to
`failure` with name `HandlerError` and the thrown message. -/
def handlerResult (p : ProcedureState Ctx Val T) (context : Ctx) (data : Val) :
    Result T Exception :=
  match p.handler context data with
  | Except.ok r => r
  | Except.error msg =>
    Result.failure { name := "HandlerError", message := msg }

/-- The body of the callable returned by `query`/`mutation`
(`execute` in lifecycle.ts), returning the result together with the
ordered log of hook and handler invocations. -/
def execute (p : ProcedureState Ctx Val T) (context : Ctx) (input : Val) :
    Result T Exception × List Event :=
  match p.parseArgs input with
  | Result.failure perr =>
    -- 1. parse failure: synthesize ValidationError, run onError hooks, return
    let error : Exception := { name := "ValidationError", message := perr.message }
    (Result.failure error,
      runCaughtHooks (p.onErrorHooks.map (fun h => h context input error))
        Event.onErrorRun 0)
  | Result.success data =>
    -- 2. beforeInvoke hooks
    let before := runBeforeHooks (p.beforeInvokeHooks.map (fun h => h context data)) 0
    match before.2 with
    | some msg =>
      let error : Exception := { name := "BeforeInvokeError", message := msg }
      (Result.failure error,
        before.1 ++
          runCaughtHooks (p.onErrorHooks.map (fun h => h context data error))
            Event.onErrorRun 0)
    | none =>
      -- 3. handler
      let result := handlerResult p context data
      -- 4. afterInvoke hooks (run regardless of success/failure)
      let afterEvents :=
        runCaughtHooks (p.afterInvokeHooks.map (fun h => h context data result))
          Event.afterRun 0
      -- 5./6. dispatch: the HandlerError branch and the plain-failure
      -- branch of the source run the same onError loop
      let dispatchEvents :=
        match result with
        | Result.failure error =>
          if error.name == "HandlerError" then
            runCaughtHooks (p.onErrorHooks.map (fun h => h context data error))
              Event.onErrorRun 0
          else
            runCaughtHooks (p.onErrorHooks.map (fun h => h context data error))
              Event.onErrorRun 0
        | Result.success value =>
          runCaughtHooks (p.onSuccessHooks.map (fun h => h context data value))
            Event.onSuccessRun 0
      (result, before.1 ++ [Event.handlerRun] ++ afterEvents ++ dispatchEvents)

def isAfterEvent : Event → Bool
  | Event.afterRun _ => true
  | _ => false

/-! ## outcome.ts: the Outcome algebra

`Outcome` is a three-way tagged union whose metadata carries a trace of
`Step`s, each of which embeds an outcome — hence the mutual inductive.
The source is dynamically typed (a trace step may embed an outcome of
any value type); the embedding fixes one value type `V` per development,
which is what every run of the source with uniform value types does. -/

mutual

inductive Outcome (V C E : Type) : Type where
  | success (value : V) (metadata : OutcomeMetadata V C E)
  | failure (causes : List C) (metadata : OutcomeMetadata V C E)
  | exception (errors : List E) (metadata : OutcomeMetadata V C E)

inductive OutcomeMetadata (V C E : Type) : Type where
  | mk (timestamp : Nat) (callsite : Option String) (trace : List (Step V C E))

inductive Step (V C E : Type) : Type where
  | mk (timestamp : Nat) (outcome : Outcome V C E) (description : Option String)

end

def Outcome.metadata : Outcome V C E → OutcomeMetadata V C E
  | .success _ m => m
  | .failure _ m => m
  | .exception _ m => m

def OutcomeMetadata.trace : OutcomeMetadata V C E → List (Step V C E)
  | .mk _ _ t => t

/-- Replaces the `metadata.trace` of an outcome, leaving the tag, the
payload and the other metadata fields alone (used to state that an
operation changed nothing but the trace). -/
def Outcome.setTrace : Outcome V C E → List (Step V C E) → Outcome V C E
  | .success v (.mk ts cs _), t => .success v (.mk ts cs t)
  | .failure c (.mk ts cs _), t => .failure c (.mk ts cs t)
  | .exception e (.mk ts cs _), t => .exception e (.mk ts cs t)

/-- `successOutcome(value)`: stamps the current time, a best-effort
callsite (unavailable in the embedding, hence `none`) and an empty
trace. -/
def successOutcome (now : Nat) (value : V) : Outcome V C E :=
  .success value (.mk now none [])

def failureOutcome (now : Nat) (causes : List C) : Outcome V C E :=
  .failure causes (.mk now none [])

def exceptionOutcome (now : Nat) (errors : List E) : Outcome V C E :=
  .exception errors (.mk now none [])

/-- `withTrace(outcome, description)`: appends one `Step` embedding the
outcome as given (with its pre-append metadata) to `metadata.trace`;
tag, payload, `timestamp` and `callsite` are spread through unchanged. -/
def withTrace (now : Nat) (outcome : Outcome V C E) (description : String) :
    Outcome V C E :=
  let step : Step V C E := Step.mk now outcome (some description)
  match outcome with
  | .success v (.mk ts cs tr) => .success v (.mk ts cs (tr ++ [step]))
  | .failure c (.mk ts cs tr) => .failure c (.mk ts cs (tr ++ [step]))
  | .exception e (.mk ts cs tr) => .exception e (.mk ts cs (tr ++ [step]))

/-- `pipe(outcome, fn, description?)`: short-circuits on anything that
is not a `Success`; otherwise applies `fn` to the value and returns
`description ? withTrace(result, description) : result` — a JS
*truthiness* check, so both an absent description and the falsy empty
string `""` skip `withTrace`. -/
def pipe (now : Nat) (outcome : Outcome V C E) (fn : V → Outcome V C E)
    (description : Option String) : Outcome V C E :=
  match outcome with
  | .success v _ =>
    let result := fn v
    match description with
    | some d => if d != "" then withTrace now result d else result
    | none => result
  | o => o

/-- `Exceptions.internal(message)` from the `Exceptions` namespace of
canned constructors. -/
def Exceptions.internal (message : String) : Exception :=
  { name := "InternalError", message := message }

/-! ## utils/retry.ts: the retry wrappers

`retry(fn, config)` wraps a throwing async function, `retryWithOutcome`
an Outcome-returning one; both merge `config` against
`defaultRetryConfig` and loop `while (attempt < maxAttempts)`.  The
embedding takes the merged config, a `rand` oracle standing for
`Math.random() * cappedDelay` (consulted only when `jitter` is on), and
models `fn` as a function from the (1-based) attempt number to that
call's behaviour.  The interpreter returns the final result together
with the ordered log of calls, `onRetry` invocations and sleeps; the
loop is driven by the fuel `maxAttempts - attempt`, which mirrors the
source's loop condition exactly. -/

structure RetryConfig where
  maxAttempts : Nat
  initialDelay : Nat
  backoffMultiplier : Nat
  maxDelay : Nat
  jitter : Bool
  isRetryable : Exception → Bool
  onRetry : Option (Nat → Exception → Nat → Except String Unit)

def defaultRetryConfig : RetryConfig :=
  { maxAttempts := 3
    initialDelay := 1000
    backoffMultiplier := 2
    maxDelay := 30000
    jitter := true
    isRetryable := fun _ => true
    onRetry := none }

inductive RetryEvent : Type where
  | call (attempt : Nat)
  | onRetryCalled (attempt : Nat) (delay : Nat)
  | slept (delay : Nat)
deriving DecidableEq, Repr

/-- `delay = min(initialDelay * backoffMultiplier^(attempt-1), maxDelay)`,
replaced by the jitter draw when jitter is enabled. -/
def computeDelay (cfg : RetryConfig) (rand : Nat → Nat) (attempt : Nat) : Nat :=
  let baseDelay := cfg.initialDelay * cfg.backoffMultiplier ^ (attempt - 1)
  let cappedDelay := min baseDelay cfg.maxDelay
  if cfg.jitter then rand attempt else cappedDelay

/-- The guarded `onRetry` callback invocation: called only when
configured; an exception the callback raises is caught and logged, so
both branches continue identically. -/
def onRetryEvents (cfg : RetryConfig) (attempt : Nat) (error : Exception)
    (delay : Nat) : List RetryEvent :=
  match cfg.onRetry with
  | none => []
  | some cb =>
    match cb attempt error delay with
    | Except.ok _ => [RetryEvent.onRetryCalled attempt delay]
    | Except.error _ => [RetryEvent.onRetryCalled attempt delay]

/-- The body of the wrapper returned by `retry`.  `fn a` is the `a`-th
call of the wrapped function; `Except.error e` models a throw of the
(already `Error`-normalized) `e`.  The overall result is
`Except.error lastError` when the loop rethrows; `lastError` is `none`
only on the unreachable fall-through with `maxAttempts = 0` (a `throw
undefined` in the source). -/
def retryGo (cfg : RetryConfig) (rand : Nat → Nat)
    (fn : Nat → Except Exception T) :
    Nat → Nat → Option Exception → Except (Option Exception) T × List RetryEvent
  | 0, _, lastError => (Except.error lastError, [])
  | fuel + 1, attempt, _ =>
    let a := attempt + 1
    match fn a with
    | Except.ok v => (Except.ok v, [RetryEvent.call a])
    | Except.error e =>
      let shouldRetry := cfg.isRetryable e && decide (a < cfg.maxAttempts)
      if shouldRetry then
        let delay := computeDelay cfg rand a
        let rest := retryGo cfg rand fn fuel a (some e)
        (rest.1,
          RetryEvent.call a ::
            (onRetryEvents cfg a e delay ++ (RetryEvent.slept delay :: rest.2)))
      else
        (Except.error (some e), [RetryEvent.call a])

def retry (cfg : RetryConfig) (rand : Nat → Nat)
    (fn : Nat → Except Exception T) :
    Except (Option Exception) T × List RetryEvent :=
  retryGo cfg rand fn cfg.maxAttempts 0 none

/-- The body of the wrapper returned by `retryWithOutcome`.  A `Success`
returns immediately; an `Exception` outcome is retried when some error
satisfies `isRetryable` and attempts remain; a `Failure` outcome is
returned as-is.  The fall-through returns
`lastError || exceptionOutcome(Exceptions.internal("Unknown error"))`,
whose construction stamps `now`. -/
def retryWithOutcomeGo (cfg : RetryConfig) (rand : Nat → Nat)
    (fn : Nat → Outcome V C Exception) (now : Nat) :
    Nat → Nat → Option (Outcome V C Exception) →
      Outcome V C Exception × List RetryEvent
  | 0, _, lastError =>
    (lastError.getD (exceptionOutcome now [Exceptions.internal "Unknown error"]), [])
  | fuel + 1, attempt, _ =>
    let a := attempt + 1
    match fn a with
    | Outcome.success v md => (Outcome.success v md, [RetryEvent.call a])
    | Outcome.exception errs md =>
      if errs.any cfg.isRetryable && decide (a < cfg.maxAttempts) then
        let delay := computeDelay cfg rand a
        let firstError := errs.headD (Exceptions.internal "Operation failed")
        let rest :=
          retryWithOutcomeGo cfg rand fn now fuel a (some (Outcome.exception errs md))
        (rest.1,
          RetryEvent.call a ::
            (onRetryEvents cfg a firstError delay ++
              (RetryEvent.slept delay :: rest.2)))
      else
        (Outcome.exception errs md, [RetryEvent.call a])
    | Outcome.failure causes md => (Outcome.failure causes md, [RetryEvent.call a])

def retryWithOutcome (cfg : RetryConfig) (rand : Nat → Nat)
    (fn : Nat → Outcome V C Exception) (now : Nat) :
    Outcome V C Exception × List RetryEvent :=
  retryWithOutcomeGo cfg rand fn now cfg.maxAttempts 0 none

/-! ## functions/alias.ts: the command registry

`createCommandRegistry` closes over two JS `Map`s: `commands` (name →
procedure) and `aliases` (name → `Set` of names).  Both are
insertion-ordered; `Map.set` on an existing key updates in place,
otherwise appends.  The embedding uses association lists and
duplicate-free lists with the same ordering discipline.  The procedure
values are opaque references, hence the type parameter `P`. -/

def mapHas (m : List (String × α)) (k : String) : Bool :=
  m.any (fun p => p.1 == k)

def mapGet (m : List (String × α)) (k : String) : Option α :=
  (m.find? (fun p => p.1 == k)).map Prod.snd

def mapSet (m : List (String × α)) (k : String) (v : α) : List (String × α) :=
  if mapHas m k then m.map (fun p => if p.1 == k then (k, v) else p)
  else m ++ [(k, v)]

def mapDelete (m : List (String × α)) (k : String) : List (String × α) :=
  m.filter (fun p => !(p.1 == k))

/-- JS `Set.add`: appends unless already present. -/
def setAdd (s : List String) (x : String) : List String :=
  if s.contains x then s else s ++ [x]

structure CommandRegistry (P : Type) where
  commands : List (String × P)
  aliases : List (String × List String)
deriving DecidableEq, Repr

def createCommandRegistry : CommandRegistry P := ⟨[], []⟩

/-- `register(name, procedure)`: sets the command and, when absent,
seeds the alias set with the name itself. -/
def CommandRegistry.register (r : CommandRegistry P) (name : String)
    (procedure : P) : CommandRegistry P :=
  { commands := mapSet r.commands name procedure
    aliases :=
      if mapHas r.aliases name then r.aliases
      else mapSet r.aliases name [name] }

/-- `alias(commandName, aliasName)`: throws (`Except.error`) when the
command is unknown; otherwise makes the alias directly callable and
records the bidirectional membership. -/
def CommandRegistry.alias (r : CommandRegistry P)
    (commandName aliasName : String) : Except String (CommandRegistry P) :=
  match mapGet r.commands commandName with
  | none => Except.error ("Command '" ++ commandName ++ "' not found")
  | some procedure =>
    let commands := mapSet r.commands aliasName procedure
    -- aliases.get(commandName)!.add(aliasName)
    let aliases1 :=
      r.aliases.map (fun p =>
        if p.1 == commandName then (p.1, setAdd p.2 aliasName) else p)
    -- if (!aliases.has(aliasName)) aliases.set(aliasName, new Set())
    let aliases2 :=
      if mapHas aliases1 aliasName then aliases1 else mapSet aliases1 aliasName []
    -- aliases.get(aliasName)!.add(commandName)
    let aliases3 :=
      aliases2.map (fun p =>
        if p.1 == aliasName then (p.1, setAdd p.2 commandName) else p)
    Except.ok { commands := commands, aliases := aliases3 }

def CommandRegistry.has (r : CommandRegistry P) (name : String) : Bool :=
  mapHas r.commands name

def CommandRegistry.get (r : CommandRegistry P) (name : String) : Option P :=
  mapGet r.commands name

/-- `resolve(aliasName)`: the first member of the alias set that is not
the name itself, when the set exists and is nonempty. -/
def CommandRegistry.resolve (r : CommandRegistry P) (aliasName : String) :
    Option String :=
  match mapGet r.aliases aliasName with
  | some primaryAliases =>
    if primaryAliases.length > 0 then
      primaryAliases.find? (fun a => !(a == aliasName))
    else none
  | none => none

def CommandRegistry.getAliases (r : CommandRegistry P) (commandName : String) :
    List String :=
  (mapGet r.aliases commandName).getD []

/-- `unregister(commandName)`: for every member of the name's alias set,
deletes that member from both maps; a no-op when the name has no alias
set. -/
def CommandRegistry.unregister (r : CommandRegistry P) (commandName : String) :
    CommandRegistry P :=
  match mapGet r.aliases commandName with
  | none => r
  | some commandAliases =>
    { commands := commandAliases.foldl (fun m a => mapDelete m a) r.commands
      aliases := commandAliases.foldl (fun m a => mapDelete m a) r.aliases }

def CommandRegistry.clear (_ : CommandRegistry P) : CommandRegistry P := ⟨[], []⟩

/-! ## events/stream.ts: the cache-invalidation stream

The stream's mutable state is the subscription map, the bounded event
history, `maxHistorySize` and the subscription id counter.  Subscriber
callbacks are invoked inside `try`/`catch` and their results discarded,
so they are observationally irrelevant to the stream state and the
embedding keeps the subscription records without them.  Event payloads
(`data`, mutation `result`/`error`) are opaque to the history/dispatch
mechanics and omitted; keys, tags, operations and timestamps are kept.
`Date.now()` is an explicit `now` argument. -/

structure Subscription where
  id : String
  key : String
  filterTags : Option (List String)
  filterOperations : Option (List String)
  created : Nat
  active : Bool
deriving DecidableEq, Repr

inductive StreamEvent : Type where
  | invalidation (key : String) (timestamp : Nat) (tags : Option (List String))
  | mutationEvent (operation : String) (timestamp : Nat)
deriving DecidableEq, Repr

structure CacheInvalidationStream where
  subscriptions : List Subscription
  eventHistory : List StreamEvent
  maxHistorySize : Nat
  subscriptionIdCounter : Nat
deriving DecidableEq, Repr

/-- `new CacheInvalidationStream()`: the field initializers. -/
def CacheInvalidationStream.new : CacheInvalidationStream :=
  { subscriptions := []
    eventHistory := []
    maxHistorySize := 1000
    subscriptionIdCounter := 0 }

/-- `addToHistory`: push, then `shift()` (drop the oldest) once the
bound is exceeded. -/
def addToHistory (s : CacheInvalidationStream) (event : StreamEvent) :
    CacheInvalidationStream :=
  let h := s.eventHistory ++ [event]
  { s with eventHistory := if h.length > s.maxHistorySize then h.drop 1 else h }

/-- `invalidate(key, options)`: builds and timestamps the event, appends
it to the history and dispatches synchronously (dispatch touches no
stream state — callback errors are caught). -/
def invalidate (s : CacheInvalidationStream) (key : String) (now : Nat)
    (tags : Option (List String)) : CacheInvalidationStream :=
  addToHistory s (StreamEvent.invalidation key now tags)

def invalidateMany (s : CacheInvalidationStream) (keys : List String)
    (now : Nat) (tags : Option (List String)) : CacheInvalidationStream :=
  keys.foldl (fun st k => invalidate st k now tags) s

/-- `invalidateByTag(tag, data?)`: one `invalidate` per subscription
whose tag filter contains the tag. -/
def invalidateByTag (s : CacheInvalidationStream) (tag : String) (now : Nat) :
    CacheInvalidationStream :=
  (s.subscriptions.filter (fun sub => (sub.filterTags.getD []).contains tag)).foldl
    (fun st sub => invalidate st sub.key now (some [tag])) s

def notifyMutation (s : CacheInvalidationStream) (operation : String)
    (now : Nat) : CacheInvalidationStream :=
  addToHistory s (StreamEvent.mutationEvent operation now)

def subscribe (s : CacheInvalidationStream) (key : String) (now : Nat)
    (filterTags filterOperations : Option (List String)) :
    CacheInvalidationStream :=
  let id := "sub_" ++ toString s.subscriptionIdCounter
  { s with
    subscriptions :=
      s.subscriptions ++
        [{ id := id, key := key, filterTags := filterTags
           filterOperations := filterOperations, created := now, active := true }]
    subscriptionIdCounter := s.subscriptionIdCounter + 1 }

/-- The closure returned by `subscribe`: deactivates and removes the
subscription when still present, a no-op otherwise (idempotent). -/
def unsubscribe (s : CacheInvalidationStream) (id : String) :
    CacheInvalidationStream :=
  { s with subscriptions := s.subscriptions.filter (fun sub => !(sub.id == id)) }

def clearHistory (s : CacheInvalidationStream) : CacheInvalidationStream :=
  { s with eventHistory := [] }

def clearSubscriptions (s : CacheInvalidationStream) : CacheInvalidationStream :=
  { s with subscriptions := [] }

/-- `setMaxHistorySize(size)`: stores the bound, then trims with
`eventHistory.slice(-size)` when the history exceeds it.  JS
`slice(-0)` is `slice(0)`, the whole array — so `size = 0` does not
trim at all; positive sizes keep the `size` most recent events. -/
def setMaxHistorySize (s : CacheInvalidationStream) (size : Nat) :
    CacheInvalidationStream :=
  { s with
    maxHistorySize := size
    eventHistory :=
      if s.eventHistory.length > size then
        if size == 0 then s.eventHistory
        else s.eventHistory.drop (s.eventHistory.length - size)
      else s.eventHistory }

/-- `getHistory()` without a limit: a copy of the history. -/
def getHistory (s : CacheInvalidationStream) : List StreamEvent :=
  s.eventHistory

/-- `createCacheStream(options)`: applies `setMaxHistorySize` only when
`options.maxHistorySize` is truthy — absent and `0` both fall through
to the default bound of 1000. -/
def createCacheStream (maxHistorySize : Option Nat) : CacheInvalidationStream :=
  match maxHistorySize with
  | some size =>
    if size != 0 then setMaxHistorySize CacheInvalidationStream.new size
    else CacheInvalidationStream.new
  | none => CacheInvalidationStream.new

/-- One public mutating call on the stream, for quantifying over call
sequences. -/
inductive StreamOp : Type where
  | invalidate (key : String) (now : Nat) (tags : Option (List String))
  | invalidateMany (keys : List String) (now : Nat) (tags : Option (List String))
  | invalidateByTag (tag : String) (now : Nat)
  | notifyMutation (operation : String) (now : Nat)
  | subscribe (key : String) (now : Nat) (filterTags filterOperations : Option (List String))
  | unsubscribe (id : String)
  | clearHistory
  | clearSubscriptions
  | setMaxHistorySize (size : Nat)
deriving DecidableEq, Repr

def applyOp (s : CacheInvalidationStream) : StreamOp → CacheInvalidationStream
  | .invalidate key now tags => invalidate s key now tags
  | .invalidateMany keys now tags => invalidateMany s keys now tags
  | .invalidateByTag tag now => invalidateByTag s tag now
  | .notifyMutation operation now => notifyMutation s operation now
  | .subscribe key now ftags fops => subscribe s key now ftags fops
  | .unsubscribe id => unsubscribe s id
  | .clearHistory => clearHistory s
  | .clearSubscriptions => clearSubscriptions s
  | .setMaxHistorySize size => setMaxHistorySize s size

def runOps (s : CacheInvalidationStream) (ops : List StreamOp) :
    CacheInvalidationStream :=
  ops.foldl applyOp s

/-- `invalidate` applied `n` times with distinct keys `"key0"`,
`"key1"`, …, in order. -/
def iterInvalidate (s : CacheInvalidationStream) : Nat → CacheInvalidationStream
  | 0 => s
  | n + 1 => invalidate (iterInvalidate s n) ("key" ++ toString n) n none

/-- History bound invariant: the spec's "event history size is always ≤
maxHistorySize". -/
def historyInvariant (s : CacheInvalidationStream) : Prop :=
  s.eventHistory.length ≤ s.maxHistorySize

/-- A mutating call whose `setMaxHistorySize` argument (if any) is
strictly positive. -/
def goodOp : StreamOp → Prop
  | StreamOp.setMaxHistorySize size => 0 < size
  | _ => True

/-! ## Concrete instances used by the per-claim witnesses and
counterexamples -/

/-- A procedure with three beforeInvoke hooks whose second one throws
`"boom"`, one afterInvoke hook, one onSuccess hook and two onError
hooks (the second of which itself throws). -/
def c1Proc : ProcedureState Unit Nat Nat :=
  { parseArgs := fun input => Result.success input
    handler := fun _ args => Except.ok (Result.success args)
    beforeInvokeHooks :=
      [fun _ _ => Except.ok (), fun _ _ => Except.error "boom",
       fun _ _ => Except.ok ()]
    afterInvokeHooks := [fun _ _ _ => Except.ok ()]
    onSuccessHooks := [fun _ _ _ => Except.ok ()]
    onErrorHooks :=
      [fun _ _ _ => Except.ok (), fun _ _ _ => Except.error "onError hook failed"] }

/-- A procedure whose handler throws and whose first afterInvoke hook
throws. -/
def c2Proc : ProcedureState Unit Nat Nat :=
  { parseArgs := fun input => Result.success input
    handler := fun _ _ => Except.error "handler exploded"
    beforeInvokeHooks := []
    afterInvokeHooks :=
      [fun _ _ _ => Except.error "afterInvoke hook failed",
       fun _ _ _ => Except.ok ()]
    onSuccessHooks := []
    onErrorHooks := [fun _ _ _ => Except.ok ()] }

def c3In : Outcome Nat String Exception :=
  Outcome.success 1 (OutcomeMetadata.mk 0 none [])

def c3Fn : Nat → Outcome Nat String Exception :=
  fun v => Outcome.success (v + 1) (OutcomeMetadata.mk 1 none [])

/-- `register("getUser", 7); alias("getUser", "fetchUser")` on a fresh
registry (procedures stand for their references, here the id 7). -/
def c9Registry : CommandRegistry Nat :=
  match (createCommandRegistry.register "getUser" 7).alias "getUser" "fetchUser" with
  | Except.ok r => r
  | Except.error _ => createCommandRegistry

/-- The same `register`/`alias` scenario, for the unregister claim. -/
def c4Registry : CommandRegistry Nat :=
  match (createCommandRegistry.register "getUser" 7).alias "getUser" "fetchUser" with
  | Except.ok r => r
  | Except.error _ => createCommandRegistry

def c5Error : Exception := { name := "Error", message := "always fails" }

/-- An always-throwing wrapped function for the retry witness. -/
def c5Fn : Nat → Except Exception Nat := fun _ => Except.error c5Error

/-- A domain-failure outcome returned by every call of the wrapped
function in the retryWithOutcome counterexample. -/
def c6Fail : Outcome Nat String Exception :=
  Outcome.failure ["NotFound"] (OutcomeMetadata.mk 0 none [])

def c6WitnessFail : Outcome Nat String Exception :=
  Outcome.failure ["Conflict"] (OutcomeMetadata.mk 3 none [])

/-- A stream with one history entry on which `setMaxHistorySize(0)` is
then called. -/
def c8CexStream : CacheInvalidationStream :=
  runOps CacheInvalidationStream.new
    [StreamOp.invalidate "users:1" 0 none, StreamOp.setMaxHistorySize 0]

/-! ## Lemmas about the hook loops -/

theorem runCaughtHooks_eq_range (calls : List (Except String Unit))
    (mk : Nat → Event) (i : Nat) :
    runCaughtHooks calls mk i = (List.range' i calls.length).map mk := by
  induction calls generalizing i with
  | nil => simp [runCaughtHooks]
  | cons c rest ih =>
    cases c with
    | ok u => simp [runCaughtHooks, ih, List.range'_succ]
    | error msg => simp [runCaughtHooks, ih, List.range'_succ]

theorem runBeforeHooks_ok (calls : List (Except String Unit)) (i : Nat)
    (h : ∀ c ∈ calls, c = Except.ok ()) :
    runBeforeHooks calls i = ((List.range' i calls.length).map Event.beforeRun, none) := by
  induction calls generalizing i with
  | nil => simp [runBeforeHooks]
  | cons c rest ih =>
    have hc : c = Except.ok () := h c (List.mem_cons_self c rest)
    subst hc
    have hrest : ∀ c ∈ rest, c = Except.ok () :=
      fun c hc => h c (List.mem_cons_of_mem _ hc)
    simp [runBeforeHooks, ih _ hrest, List.range'_succ]

theorem runBeforeHooks_throw (calls : List (Except String Unit)) (k : Nat)
    (msg : String) (i : Nat)
    (hk : calls.get? k = some (Except.error msg))
    (hfirst : ∀ j, j < k → calls.get? j = some (Except.ok ())) :
    runBeforeHooks calls i =
      ((List.range' i (k + 1)).map Event.beforeRun, some msg) := by
  induction calls generalizing k i with
  | nil => simp [List.get?] at hk
  | cons c rest ih =>
    cases k with
    | zero =>
      simp only [List.get?] at hk
      cases hk
      simp [runBeforeHooks, List.range'_succ]
    | succ k =>
      have hc : c = Except.ok () := by
        have := hfirst 0 (Nat.succ_pos k)
        simpa [List.get?] using this
      subst hc
      have hk2 : rest.get? k = some (Except.error msg) := by simpa [List.get?] using hk
      have hf2 : ∀ j, j < k → rest.get? j = some (Except.ok ()) := by
        intro j hj
        have := hfirst (j + 1) (Nat.succ_lt_succ hj)
        simpa [List.get?] using this
      simp [runBeforeHooks, ih _ _ hk2 hf2, List.range'_succ]

theorem count_beforeRun_map_onErrorRun (l : List Nat) (i : Nat) :
    (l.map Event.onErrorRun).count (Event.beforeRun i) = 0 := by
  simp [List.count_eq_zero]

theorem onErrorRun_injective : Function.Injective Event.onErrorRun := by
  intro a b h
  injection h

theorem afterRun_injective : Function.Injective Event.afterRun := by
  intro a b h
  injection h

/-! ## C1 — a throwing beforeInvoke hook short-circuits the call -/

/-- C1: if argument parsing succeeds and the `k`-th beforeInvoke hook is
the first that throws (message `msg`), then `execute` runs exactly the
beforeInvoke hooks `0..k`, skips the handler and every afterInvoke
hook, runs each onError hook exactly once, and returns a Failure whose
error is named `BeforeInvokeError` and carries the thrown message. -/
theorem beforeInvoke_throw_short_circuits
    (p : ProcedureState Ctx Val T) (context : Ctx) (input data : Val)
    (k : Nat) (msg : String)
    (hparse : p.parseArgs input = Result.success data)
    (hthrow : (p.beforeInvokeHooks.map (fun h => h context data)).get? k
      = some (Except.error msg))
    (hfirst : ∀ j, j < k →
      (p.beforeInvokeHooks.map (fun h => h context data)).get? j
        = some (Except.ok ())) :
    execute p context input =
      (Result.failure { name := "BeforeInvokeError", message := msg },
        ((List.range (k + 1)).map Event.beforeRun) ++
          ((List.range p.onErrorHooks.length).map Event.onErrorRun)) ∧
    Event.handlerRun ∉ (execute p context input).2 ∧
    (∀ i, Event.afterRun i ∉ (execute p context input).2) ∧
    (∀ i, i < p.onErrorHooks.length →
      ((execute p context input).2.count (Event.onErrorRun i)) = 1) := by
  have hmain : execute p context input =
      (Result.failure { name := "BeforeInvokeError", message := msg },
        ((List.range (k + 1)).map Event.beforeRun) ++
          ((List.range p.onErrorHooks.length).map Event.onErrorRun)) := by
    unfold execute
    rw [hparse]
    simp only [runBeforeHooks_throw _ k msg 0 hthrow hfirst]
    simp [runCaughtHooks_eq_range, List.range_eq_range']
  refine ⟨hmain, ?_, ?_, ?_⟩
  · rw [hmain]
    simp
  · intro i
    rw [hmain]
    simp
  · intro i hi
    rw [hmain]
    rw [List.count_append]
    have h1 : ((List.range (k + 1)).map Event.beforeRun).count (Event.onErrorRun i) = 0 := by
      simp [List.count_eq_zero]
    have h2 : ((List.range p.onErrorHooks.length).map Event.onErrorRun).count
        (Event.onErrorRun i) = 1 := by
      refine List.count_eq_one_of_mem ?_ ?_
      · exact (List.nodup_range _).map onErrorRun_injective
      · exact List.mem_map_of_mem _ (List.mem_range.mpr hi)
    omega

/-- C1 witness: the concrete procedure `c1Proc` invoked on input 5. -/
theorem beforeInvoke_throw_short_circuits_witness :
    execute c1Proc () 5 =
      (Result.failure { name := "BeforeInvokeError", message := "boom" },
        ((List.range 2).map Event.beforeRun) ++
          ((List.range 2).map Event.onErrorRun)) ∧
    Event.handlerRun ∉ (execute c1Proc () 5).2 ∧
    Event.afterRun 0 ∉ (execute c1Proc () 5).2 ∧
    ((execute c1Proc () 5).2.count (Event.onErrorRun 0)) = 1 ∧
    ((execute c1Proc () 5).2.count (Event.onErrorRun 1)) = 1 := by
  have h := beforeInvoke_throw_short_circuits c1Proc () 5 5 1 "boom" rfl rfl
    (by
      intro j hj
      have hj0 : j = 0 := by omega
      subst hj0
      rfl)
  exact ⟨h.1, h.2.1, h.2.2.1 0, h.2.2.2 0 (by decide), h.2.2.2 1 (by decide)⟩

/-! ## C2 — afterInvoke hooks always run, exactly once, in order -/

/-- C2: once parsing succeeds and no beforeInvoke hook throws, every
registered afterInvoke hook runs exactly once, in registration order,
whatever the handler does (returns success, returns failure, or
throws), and the returned result is exactly the handler's result —
afterInvoke hooks that throw are caught and change nothing. -/
theorem afterInvoke_always_runs
    (p : ProcedureState Ctx Val T) (context : Ctx) (input data : Val)
    (hparse : p.parseArgs input = Result.success data)
    (hbefore : ∀ c ∈ p.beforeInvokeHooks.map (fun h => h context data),
      c = Except.ok ()) :
    (execute p context input).1 = handlerResult p context data ∧
    (execute p context input).2.filter isAfterEvent
      = (List.range p.afterInvokeHooks.length).map Event.afterRun ∧
    (∀ i, i < p.afterInvokeHooks.length →
      ((execute p context input).2.count (Event.afterRun i)) = 1) := by
  have hexec : execute p context input =
      (handlerResult p context data,
        ((List.range p.beforeInvokeHooks.length).map Event.beforeRun) ++
          [Event.handlerRun] ++
          ((List.range p.afterInvokeHooks.length).map Event.afterRun) ++
          (match handlerResult p context data with
            | Result.failure _ =>
              (List.range p.onErrorHooks.length).map Event.onErrorRun
            | Result.success _ =>
              (List.range p.onSuccessHooks.length).map Event.onSuccessRun)) := by
    unfold execute
    rw [hparse]
    simp only [runBeforeHooks_ok _ 0 hbefore]
    cases hres : handlerResult p context data with
    | success v =>
      simp [hres, runCaughtHooks_eq_range, List.range_eq_range']
    | failure e =>
      simp [hres, runCaughtHooks_eq_range, List.range_eq_range', ite_self]
  refine ⟨by rw [hexec], ?_, ?_⟩
  · rw [hexec]
    simp only [List.filter_append]
    have hb : ((List.range p.beforeInvokeHooks.length).map Event.beforeRun).filter
        isAfterEvent = [] := by
      simp [List.filter_eq_nil_iff, isAfterEvent]
    have hh : ([Event.handlerRun] : List Event).filter isAfterEvent = [] := by
      simp [isAfterEvent]
    have ha : ((List.range p.afterInvokeHooks.length).map Event.afterRun).filter
        isAfterEvent
        = (List.range p.afterInvokeHooks.length).map Event.afterRun := by
      refine List.filter_eq_self.mpr ?_
      intro e he
      obtain ⟨i, _, rfl⟩ := List.mem_map.mp he
      rfl
    have hd : (match handlerResult p context data with
        | Result.failure _ =>
          (List.range p.onErrorHooks.length).map Event.onErrorRun
        | Result.success _ =>
          (List.range p.onSuccessHooks.length).map Event.onSuccessRun).filter
            isAfterEvent = [] := by
      cases handlerResult p context data <;> simp [List.filter_eq_nil_iff, isAfterEvent]
    rw [hb, hh, ha, hd]
    simp
  · intro i hi
    rw [hexec]
    simp only [List.count_append]
    have hb : ((List.range p.beforeInvokeHooks.length).map Event.beforeRun).count
        (Event.afterRun i) = 0 := by
      simp [List.count_eq_zero]
    have hh : ([Event.handlerRun] : List Event).count (Event.afterRun i) = 0 := by
      simp
    have ha : ((List.range p.afterInvokeHooks.length).map Event.afterRun).count
        (Event.afterRun i) = 1 := by
      refine List.count_eq_one_of_mem ?_ ?_
      · exact (List.nodup_range _).map afterRun_injective
      · exact List.mem_map_of_mem _ (List.mem_range.mpr hi)
    have hd : (match handlerResult p context data with
        | Result.failure _ =>
          (List.range p.onErrorHooks.length).map Event.onErrorRun
        | Result.success _ =>
          (List.range p.onSuccessHooks.length).map Event.onSuccessRun).count
            (Event.afterRun i) = 0 := by
      cases handlerResult p context data <;> simp [List.count_eq_zero]
    omega

/-- C2 witness: the concrete procedure `c2Proc` (throwing handler,
throwing first afterInvoke hook) invoked on input 7. -/
theorem afterInvoke_always_runs_witness :
    (execute c2Proc () 7).1 = handlerResult c2Proc () 7 ∧
    (execute c2Proc () 7).2.filter isAfterEvent
      = (List.range 2).map Event.afterRun ∧
    ((execute c2Proc () 7).2.count (Event.afterRun 0)) = 1 ∧
    ((execute c2Proc () 7).2.count (Event.afterRun 1)) = 1 := by
  have h := afterInvoke_always_runs c2Proc () 7 7 rfl (by simp [c2Proc])
  exact ⟨h.1, h.2.1, h.2.2 0 (by decide), h.2.2 1 (by decide)⟩

/-! ## C3 — what exactly does the trace Step of `pipe` record?

The source's `pipe` calls `withTrace(result, description)` on the value
returned by `fn`, so the appended `Step` embeds fn's result (with its
pre-append metadata), not the input Success outcome the claim asserts. -/

/-- C3 counterexample: piping `Success 1` through the successor function
with a description appends exactly one Step — but that Step records
fn's result (`Success 2`), which differs from the input outcome
(`Success 1`) the claim says it records. -/
theorem pipe_step_records_result_not_input :
    (pipe 9 c3In c3Fn (some "inc")).metadata.trace
      = [Step.mk 9 (c3Fn 1) (some "inc")] ∧
    c3Fn 1 ≠ c3In := by
  constructor
  · rfl
  · intro h
    simp only [c3Fn, c3In] at h
    injection h with hv hm
    exact absurd hv (by decide)

/-- C3 amended: for every Success outcome, `pipe` with a truthy
(non-empty) description returns `withTrace` of fn's result: fn's result
with exactly one Step appended to its `metadata.trace`, the Step
recording a timestamp, the description, and fn's result as it was
*before* the Step was appended (not the input outcome); nothing but the
trace is changed.  The falsy empty-string description appends no Step:
fn's result is returned as-is. -/
theorem pipe_appends_one_step_recording_fn_result
    (v : V) (md : OutcomeMetadata V C E) (fn : V → Outcome V C E)
    (d : String) (now : Nat) (hd : d ≠ "") :
    pipe now (Outcome.success v md) fn (some d) = withTrace now (fn v) d ∧
    (pipe now (Outcome.success v md) fn (some d)).metadata.trace
      = (fn v).metadata.trace ++ [Step.mk now (fn v) (some d)] ∧
    (pipe now (Outcome.success v md) fn (some d)).setTrace (fn v).metadata.trace
      = fn v ∧
    pipe now (Outcome.success v md) fn (some "") = fn v := by
  have hb : (d != "") = true := by simpa using hd
  have hpipe : pipe now (Outcome.success v md) fn (some d)
      = withTrace now (fn v) d := by
    simp [pipe, hb]
  refine ⟨hpipe, ?_, ?_, ?_⟩
  · rw [hpipe]
    cases hfn : fn v with
    | success a m => cases m with | mk ts cs tr =>
        simp [withTrace, Outcome.metadata, OutcomeMetadata.trace]
    | failure a m => cases m with | mk ts cs tr =>
        simp [withTrace, Outcome.metadata, OutcomeMetadata.trace]
    | exception a m => cases m with | mk ts cs tr =>
        simp [withTrace, Outcome.metadata, OutcomeMetadata.trace]
  · rw [hpipe]
    cases hfn : fn v with
    | success a m => cases m with | mk ts cs tr =>
        simp [withTrace, Outcome.setTrace, Outcome.metadata, OutcomeMetadata.trace]
    | failure a m => cases m with | mk ts cs tr =>
        simp [withTrace, Outcome.setTrace, Outcome.metadata, OutcomeMetadata.trace]
    | exception a m => cases m with | mk ts cs tr =>
        simp [withTrace, Outcome.setTrace, Outcome.metadata, OutcomeMetadata.trace]
  · simp [pipe]

/-- C3 witness: the successor pipeline with the truthy description
`"inc"` (and the falsy `""`) on the concrete Success input. -/
theorem pipe_appends_one_step_recording_fn_result_witness :
    pipe 9 (Outcome.success 1 (OutcomeMetadata.mk 0 none [])) c3Fn (some "inc")
      = withTrace 9 (c3Fn 1) "inc" ∧
    (pipe 9 (Outcome.success 1 (OutcomeMetadata.mk 0 none [])) c3Fn
        (some "inc")).metadata.trace
      = (c3Fn 1).metadata.trace ++ [Step.mk 9 (c3Fn 1) (some "inc")] ∧
    (pipe 9 (Outcome.success 1 (OutcomeMetadata.mk 0 none [])) c3Fn
        (some "inc")).setTrace (c3Fn 1).metadata.trace
      = c3Fn 1 ∧
    pipe 9 (Outcome.success 1 (OutcomeMetadata.mk 0 none [])) c3Fn (some "")
      = c3Fn 1 := by
  have h := pipe_appends_one_step_recording_fn_result 1
    (OutcomeMetadata.mk 0 none []) c3Fn "inc" 9 (by decide)
  exact h

/-! ## C7 — pipe short-circuits on non-Success outcomes -/

/-- C7: on a Failure or Exception outcome, `pipe` returns its input
unchanged — same tag, same payload, same metadata — and the
transformation function is irrelevant (any two functions yield the same
call, i.e. `fn` is never invoked), with or without a description. -/
theorem pipe_short_circuits_non_success
    (causes : List C) (errs : List E) (md me : OutcomeMetadata V C E)
    (fn fn2 : V → Outcome V C E) (d : Option String) (now : Nat) :
    pipe now (Outcome.failure causes md) fn d = Outcome.failure causes md ∧
    pipe now (Outcome.exception errs me) fn d = Outcome.exception errs me ∧
    pipe now (Outcome.failure causes md) fn d
      = pipe now (Outcome.failure causes md) fn2 d ∧
    pipe now (Outcome.exception errs me) fn d
      = pipe now (Outcome.exception errs me) fn2 d :=
  ⟨rfl, rfl, rfl, rfl⟩

/-! ## Lemmas about the registry's map model -/

theorem mapGet_mapDelete (m : List (String × α)) (a k : String) :
    mapGet (mapDelete m a) k = if k = a then none else mapGet m k := by
  induction m with
  | nil => simp [mapGet, mapDelete]
  | cons p rest ih =>
    rcases p with ⟨pk, pv⟩
    by_cases hpk : pk = k <;> by_cases hpa : pk = a <;> by_cases hka : k = a <;>
      simp_all [mapGet, mapDelete]

theorem mapGet_foldl_mapDelete (s : List String) (m : List (String × α))
    (k : String) :
    mapGet (s.foldl (fun m a => mapDelete m a) m) k
      = if k ∈ s then none else mapGet m k := by
  induction s generalizing m with
  | nil => simp
  | cons a rest ih =>
    simp only [List.foldl_cons]
    rw [ih]
    by_cases hk : k ∈ rest
    · simp [hk]
    · by_cases hka : k = a <;> simp [hk, hka, mapGet_mapDelete]

theorem mapHas_eq_isSome (m : List (String × α)) (k : String) :
    mapHas m k = (mapGet m k).isSome := by
  induction m with
  | nil => simp [mapHas, mapGet]
  | cons p rest ih =>
    by_cases hp : p.1 = k <;> simp_all [mapHas, mapGet, List.find?_cons]

/-! ## C4 — unregister removes the alias set (but not always the name) -/

/-- C4 counterexample: after `register("getUser", 7)` and
`alias("getUser", "fetchUser")`, the alias set of `"fetchUser"` is
`["getUser"]` — it does not contain `"fetchUser"` itself — so
`unregister("fetchUser")` deletes `"getUser"` but leaves `"fetchUser"`
registered, contradicting the claim that `has(n)` is false afterwards. -/
theorem unregister_alias_name_survives :
    c4Registry.has "fetchUser" = true ∧
    c4Registry.getAliases "fetchUser" = ["getUser"] ∧
    (c4Registry.unregister "fetchUser").has "getUser" = false ∧
    (c4Registry.unregister "fetchUser").has "fetchUser" = true :=
  ⟨rfl, rfl, rfl, rfl⟩

/-- C4 amended: `unregister(n)` removes exactly the members of `n`'s
alias set from the registry: afterwards `has(m)` is false for every `m`
in the set and unchanged for every other name.  Since a directly
registered name is seeded into its own alias set, such an `n` is itself
removed; a name added only via `alias` is not in its own set and
survives its own `unregister`. -/
theorem unregister_removes_alias_set (r : CommandRegistry P) (n m : String) :
    (m ∈ r.getAliases n → (r.unregister n).has m = false) ∧
    (m ∉ r.getAliases n → (r.unregister n).has m = r.has m) := by
  unfold CommandRegistry.unregister CommandRegistry.getAliases CommandRegistry.has
  cases hn : mapGet r.aliases n with
  | none => simp
  | some s =>
    constructor
    · intro hm
      simp only [Option.getD_some] at hm
      simp [mapHas_eq_isSome, mapGet_foldl_mapDelete, hm]
    · intro hm
      simp only [Option.getD_some] at hm
      simp [mapHas_eq_isSome, mapGet_foldl_mapDelete, hm]

/-- C4 witness: on the concrete registry, unregistering `"fetchUser"`
removes its alias-set member `"getUser"` and leaves `"fetchUser"`
(which is outside its own alias set) untouched. -/
theorem unregister_removes_alias_set_witness :
    (c4Registry.unregister "fetchUser").has "getUser" = false ∧
    (c4Registry.unregister "fetchUser").has "fetchUser"
      = c4Registry.has "fetchUser" := by
  constructor
  · exact (unregister_removes_alias_set c4Registry "fetchUser" "getUser").1
      (by decide)
  · exact (unregister_removes_alias_set c4Registry "fetchUser" "fetchUser").2
      (by decide)

/-! ## C9 — the register/alias scenario -/

/-- C9: after `register("getUser", proc)` and
`alias("getUser", "fetchUser")` on a fresh registry, the alias is
directly gettable and callable, `resolve("fetchUser")` returns
`"getUser"`, and the alias membership is bidirectional. -/
theorem register_alias_scenario :
    (createCommandRegistry.register "getUser" 7).alias "getUser" "fetchUser"
      = Except.ok c9Registry ∧
    c9Registry.get "fetchUser" = some 7 ∧
    c9Registry.has "fetchUser" = true ∧
    c9Registry.resolve "fetchUser" = some "getUser" ∧
    "fetchUser" ∈ c9Registry.getAliases "getUser" ∧
    "getUser" ∈ c9Registry.getAliases "fetchUser" := by
  refine ⟨rfl, rfl, rfl, rfl, ?_, ?_⟩ <;> decide

/-! ## C5 — retry with 3 attempts, no jitter -/

/-- C5: wrapping an always-throwing function with
`{maxAttempts: 3, initialDelay: 100, backoffMultiplier: 2, jitter: false}`
(merged over the defaults) calls it exactly at attempts 1, 2, 3, sleeps
100 ms and then 200 ms between the attempts
(`min(100 * 2^(attempt-1), 30000)`), and rejects with the error thrown
by the third call, unchanged. -/
theorem retry_three_attempts_two_delays
    (rand : Nat → Nat) (fn : Nat → Except Exception T) (es : Nat → Exception)
    (hthrow : ∀ a, fn a = Except.error (es a)) :
    retry { defaultRetryConfig with
            maxAttempts := 3, initialDelay := 100,
            backoffMultiplier := 2, jitter := false } rand fn
      = (Except.error (some (es 3)),
         [RetryEvent.call 1, RetryEvent.slept 100,
          RetryEvent.call 2, RetryEvent.slept 200, RetryEvent.call 3]) := by
  simp [retry, retryGo, hthrow, computeDelay, onRetryEvents, defaultRetryConfig]

/-- C5 witness: the concrete always-throwing `c5Fn`. -/
theorem retry_three_attempts_two_delays_witness :
    retry { defaultRetryConfig with
            maxAttempts := 3, initialDelay := 100,
            backoffMultiplier := 2, jitter := false } (fun _ => 0) c5Fn
      = (Except.error (some c5Error),
         [RetryEvent.call 1, RetryEvent.slept 100,
          RetryEvent.call 2, RetryEvent.slept 200, RetryEvent.call 3]) := by
  have h := retry_three_attempts_two_delays (fun _ => 0) c5Fn
    (fun _ => c5Error) (fun _ => rfl)
  exact h

/-! ## C6 — a Failure outcome is never retried

True whenever the loop runs at all, i.e. `maxAttempts ≥ 1`; but the
claim quantifies over *every* retry configuration, and with
`maxAttempts: 0` the `while (attempt < maxAttempts)` loop never calls
`fn` and the wrapper returns the synthesized
`exceptionOutcome(Exceptions.internal("Unknown error"))` instead of the
Failure. -/

/-- C6 counterexample: with `maxAttempts := 0`, the wrapper performs
zero calls (empty event log, not the claim's "exactly one") and returns
a synthesized InternalError exception outcome, not the Failure the
first call would have produced. -/
theorem retryWithOutcome_zero_attempts :
    retryWithOutcome { defaultRetryConfig with maxAttempts := 0 }
        (fun _ => 0) (fun _ => c6Fail) 99
      = (exceptionOutcome 99 [Exceptions.internal "Unknown error"], []) ∧
    (fun (_ : Nat) => c6Fail) 1 = c6Fail ∧
    exceptionOutcome 99 [Exceptions.internal "Unknown error"] ≠ c6Fail := by
  refine ⟨rfl, rfl, ?_⟩
  intro h
  exact Outcome.noConfusion h

/-- C6 amended: for every configuration with `maxAttempts ≥ 1`, a first
call returning a Failure outcome ends the wrapper immediately: exactly
one call to `fn`, no sleep, and the Failure returned unchanged —
regardless of `isRetryable`. -/
theorem retryWithOutcome_failure_not_retried
    (cfg : RetryConfig) (rand : Nat → Nat) (now : Nat)
    (fn : Nat → Outcome V C Exception) (causes : List C)
    (md : OutcomeMetadata V C Exception)
    (hmax : 1 ≤ cfg.maxAttempts)
    (hfn : fn 1 = Outcome.failure causes md) :
    retryWithOutcome cfg rand fn now
      = (Outcome.failure causes md, [RetryEvent.call 1]) := by
  unfold retryWithOutcome
  obtain ⟨k, hk⟩ : ∃ k, cfg.maxAttempts = k + 1 := ⟨cfg.maxAttempts - 1, by omega⟩
  rw [hk]
  simp [retryWithOutcomeGo, hfn]

/-- C6 witness: the default configuration and a constant-Failure
function. -/
theorem retryWithOutcome_failure_not_retried_witness :
    retryWithOutcome defaultRetryConfig (fun _ => 0) (fun _ => c6WitnessFail) 5
      = (Outcome.failure ["Conflict"] (OutcomeMetadata.mk 3 none []),
         [RetryEvent.call 1]) := by
  have h := retryWithOutcome_failure_not_retried defaultRetryConfig
    (fun _ => 0) 5 (fun _ => c6WitnessFail) ["Conflict"]
    (OutcomeMetadata.mk 3 none []) (by decide) rfl
  exact h

/-! ## Lemmas about the stream's history bound -/

theorem historyInvariant_addToHistory (s : CacheInvalidationStream)
    (e : StreamEvent) (h : historyInvariant s) :
    historyInvariant (addToHistory s e) := by
  unfold historyInvariant addToHistory at *
  dsimp only
  split
  · simp only [List.length_drop, List.length_append, List.length_cons,
      List.length_nil]
    omega
  · next hc =>
    simp only [List.length_append, List.length_cons, List.length_nil] at hc ⊢
    omega

theorem historyInvariant_foldl {α : Type}
    (f : CacheInvalidationStream → α → CacheInvalidationStream)
    (hf : ∀ s a, historyInvariant s → historyInvariant (f s a)) :
    ∀ (l : List α) (s : CacheInvalidationStream), historyInvariant s →
      historyInvariant (l.foldl f s) := by
  intro l
  induction l with
  | nil => intro s hs; simpa using hs
  | cons a rest ih =>
    intro s hs
    simp only [List.foldl_cons]
    exact ih _ (hf s a hs)

theorem historyInvariant_setMaxHistorySize (s : CacheInvalidationStream)
    (size : Nat) (hpos : 0 < size) :
    historyInvariant (setMaxHistorySize s size) := by
  unfold historyInvariant setMaxHistorySize
  dsimp only
  by_cases hgt : s.eventHistory.length > size
  · have hne : (size == 0) = false := by
      simp only [beq_eq_false_iff_ne, ne_eq]
      omega
    simp only [if_pos hgt, hne, Bool.false_eq_true, if_false, List.length_drop]
    omega
  · simp only [if_neg hgt]
    omega

theorem historyInvariant_applyOp (s : CacheInvalidationStream) (op : StreamOp)
    (hop : goodOp op) (h : historyInvariant s) :
    historyInvariant (applyOp s op) := by
  cases op with
  | invalidate key now tags => exact historyInvariant_addToHistory s _ h
  | invalidateMany keys now tags =>
    exact historyInvariant_foldl _
      (fun s k hs => historyInvariant_addToHistory s _ hs) keys s h
  | invalidateByTag tag now =>
    exact historyInvariant_foldl _
      (fun s sub hs => historyInvariant_addToHistory s _ hs) _ s h
  | notifyMutation operation now => exact historyInvariant_addToHistory s _ h
  | subscribe key now ftags fops => exact h
  | unsubscribe id => exact h
  | clearHistory =>
    simp [applyOp, clearHistory, historyInvariant]
  | clearSubscriptions => exact h
  | setMaxHistorySize size => exact historyInvariant_setMaxHistorySize s size hop

theorem historyInvariant_runOps (ops : List StreamOp)
    (s : CacheInvalidationStream) (hs : historyInvariant s)
    (hops : ∀ op ∈ ops, goodOp op) : historyInvariant (runOps s ops) := by
  induction ops generalizing s with
  | nil => simpa [runOps] using hs
  | cons op rest ih =>
    simp only [runOps, List.foldl_cons]
    exact ih _
      (historyInvariant_applyOp s op (hops op (List.mem_cons_self op rest)) hs)
      (fun o ho => hops o (List.mem_cons_of_mem _ ho))

theorem historyInvariant_createCacheStream (init : Option Nat) :
    historyInvariant (createCacheStream init) := by
  cases init with
  | none => simp [createCacheStream, CacheInvalidationStream.new, historyInvariant]
  | some size =>
    by_cases hz : size = 0
    · simp [createCacheStream, CacheInvalidationStream.new, historyInvariant, hz]
    · simp [createCacheStream, CacheInvalidationStream.new, historyInvariant,
        setMaxHistorySize, hz]

/-! ## C8 — the history bound and FIFO eviction -/

/-- C8 counterexample: `setMaxHistorySize(0)` trims with `slice(-0)`,
i.e. `slice(0)`, the whole array — so a stream holding one event keeps
it while the bound becomes 0, violating the claimed invariant
`history.length ≤ maxHistorySize` after a mutating call. -/
theorem setMaxHistorySize_zero_breaks_bound :
    c8CexStream.eventHistory.length = 1 ∧
    c8CexStream.maxHistorySize = 0 ∧
    ¬ historyInvariant c8CexStream :=
  ⟨rfl, rfl, by unfold historyInvariant; decide⟩

/-- C8 amended: as long as every `setMaxHistorySize` call in the
sequence passes a strictly positive size (which is the only way
`createCacheStream` itself ever calls it), the history length stays
≤ `maxHistorySize` after any sequence of mutating calls; eviction is
FIFO: with bound 5, invalidating `key0`..`key9` retains exactly the
five most recent events `key5`..`key9`, in order. -/
theorem history_bounded_and_fifo (init : Option Nat) (ops : List StreamOp)
    (hops : ∀ op ∈ ops, goodOp op) :
    historyInvariant (runOps (createCacheStream init) ops) ∧
    getHistory (iterInvalidate (createCacheStream (some 5)) 10)
      = [StreamEvent.invalidation "key5" 5 none,
         StreamEvent.invalidation "key6" 6 none,
         StreamEvent.invalidation "key7" 7 none,
         StreamEvent.invalidation "key8" 8 none,
         StreamEvent.invalidation "key9" 9 none] := by
  constructor
  · exact historyInvariant_runOps ops _ (historyInvariant_createCacheStream init) hops
  · decide

/-- C8 witness: a concrete mixed sequence of mutating calls with a
positive `setMaxHistorySize`. -/
theorem history_bounded_and_fifo_witness :
    historyInvariant (runOps (createCacheStream (some 3))
      [StreamOp.invalidate "a" 0 none,
       StreamOp.invalidateMany ["b", "c", "d"] 1 none,
       StreamOp.subscribe "a" 2 none none,
       StreamOp.setMaxHistorySize 2,
       StreamOp.notifyMutation "createUser" 3]) ∧
    getHistory (iterInvalidate (createCacheStream (some 5)) 10)
      = [StreamEvent.invalidation "key5" 5 none,
         StreamEvent.invalidation "key6" 6 none,
         StreamEvent.invalidation "key7" 7 none,
         StreamEvent.invalidation "key8" 8 none,
         StreamEvent.invalidation "key9" 9 none] := by
  have h := history_bounded_and_fifo (some 3)
    [StreamOp.invalidate "a" 0 none,
     StreamOp.invalidateMany ["b", "c", "d"] 1 none,
     StreamOp.subscribe "a" 2 none none,
     StreamOp.setMaxHistorySize 2,
     StreamOp.notifyMutation "createUser" 3]
    (by
      intro op hop
      simp only [List.mem_cons, List.not_mem_nil, or_false] at hop
      rcases hop with rfl | rfl | rfl | rfl | rfl <;> simp [goodOp])
  exact h

/-! ## C10 — createCacheStream ignores a zero maxHistorySize -/

theorem length_invalidate (s : CacheInvalidationStream) (key : String)
    (now : Nat) (tags : Option (List String)) :
    (invalidate s key now tags).eventHistory.length
      = if s.eventHistory.length + 1 > s.maxHistorySize
        then s.eventHistory.length else s.eventHistory.length + 1 := by
  unfold invalidate addToHistory
  dsimp only
  split
  · next hgt =>
    simp only [List.length_append, List.length_cons, List.length_nil] at hgt
    simp only [List.length_drop, List.length_append, List.length_cons,
      List.length_nil, if_pos hgt]
    omega
  · next hle =>
    simp only [List.length_append, List.length_cons, List.length_nil] at hle ⊢
    rw [if_neg hle]

theorem maxHistorySize_invalidate (s : CacheInvalidationStream) (key : String)
    (now : Nat) (tags : Option (List String)) :
    (invalidate s key now tags).maxHistorySize = s.maxHistorySize := rfl

theorem iterInvalidate_length (s : CacheInvalidationStream)
    (h : s.eventHistory.length ≤ s.maxHistorySize) (n : Nat) :
    (iterInvalidate s n).eventHistory.length
      = min (s.eventHistory.length + n) s.maxHistorySize ∧
    (iterInvalidate s n).maxHistorySize = s.maxHistorySize := by
  induction n with
  | zero =>
    constructor
    · simp only [iterInvalidate]
      omega
    · rfl
  | succ n ih =>
    obtain ⟨ihl, ihm⟩ := ih
    constructor
    · simp only [iterInvalidate, length_invalidate, ihl, ihm]
      split <;> omega
    · simp only [iterInvalidate, maxHistorySize_invalidate, ihm]

/-- C10: `createCacheStream({maxHistorySize: 0})` hits the falsy check,
keeps the default bound of 1000, and after more than 1000 invalidations
the history holds 1000 events rather than 0; the option takes effect
exactly for strictly positive sizes. -/
theorem createCacheStream_zero_ignored (n : Nat) (h : 1000 < n) :
    (createCacheStream (some 0)).maxHistorySize = 1000 ∧
    (iterInvalidate (createCacheStream (some 0)) n).eventHistory.length = 1000 ∧
    (∀ k, 0 < k → (createCacheStream (some k)).maxHistorySize = k) := by
  refine ⟨rfl, ?_, ?_⟩
  · have base : (createCacheStream (some 0)).eventHistory.length
        ≤ (createCacheStream (some 0)).maxHistorySize := by decide
    have hlen := (iterInvalidate_length (createCacheStream (some 0)) base n).1
    have h0 : (createCacheStream (some 0)).eventHistory.length = 0 := rfl
    have hm : (createCacheStream (some 0)).maxHistorySize = 1000 := rfl
    rw [hlen, h0, hm]
    omega
  · intro k hk
    have hkne : k ≠ 0 := by omega
    simp [createCacheStream, setMaxHistorySize, CacheInvalidationStream.new, hkne]

/-- C10 witness: 1001 invalidations on a `maxHistorySize: 0` stream
leave 1000 events; a positive size (5) is honoured. -/
theorem createCacheStream_zero_ignored_witness :
    (createCacheStream (some 0)).maxHistorySize = 1000 ∧
    (iterInvalidate (createCacheStream (some 0)) 1001).eventHistory.length = 1000 ∧
    (createCacheStream (some 5)).maxHistorySize = 5 := by
  have h := createCacheStream_zero_ignored 1001 (by decide)
  exact ⟨h.1, h.2.1, h.2.2 5 (by decide)⟩

end Functions
